import Mathlib

/-!
# Verification of the go-libp2p WebTransport transport core

A shallow embedding of the WebTransport transport's address codec
(`p2p/transport/webtransport/multiaddr.go`) and of the listener's accept
pipeline (`listener.go`), together with proofs of the specified properties.

Machine bytes are modelled as `Nat` values (with explicit `< 256` bounds
where they matter), byte strings as `List Nat`, and text as `List Char`.
Fallible operations return `Except String` or `Option`, mirroring Go's
`(T, error)` results.

External libraries used by the source (go-multihash, go-multibase,
go-multiaddr / mafmt) are embedded by their documented wire behaviour:
unsigned LEB128 varints, `<varint code><varint length><digest>` multihashes,
and one-letter-prefixed multibase text encodings over big-number base
alphabets (a representative table of bases is modelled).
-/

/-! ## Unsigned varints (LEB128), as used by go-multihash -/

/-- Unsigned LEB128 varint encoding of a natural number (Go `binary.PutUvarint`):
low 7 bits first, continuation bit `0x80` on every byte but the last. -/
def uvarintEncode (n : Nat) : List Nat :=
  if h : n < 128 then [n]
  else (n % 128 + 128) :: uvarintEncode (n / 128)
decreasing_by exact Nat.div_lt_self (by omega) (by omega)

/-- Unsigned LEB128 varint decoding (Go `binary.Uvarint`): returns the decoded
value and the remaining bytes, or `none` if the buffer ends mid-varint. -/
def uvarintDecode : List Nat → Option (Nat × List Nat)
  | [] => none
  | b :: rest =>
    if b < 128 then some (b, rest)
    else
      match uvarintDecode rest with
      | some (m, rest1) => some (m * 128 + (b - 128), rest1)
      | none => none

/-! ## Generic big-number base alphabets (go-multibase's base10/base36/base58 family)

These bases encode a byte string as: one alphabet-zero character per leading
zero byte, followed by the big-endian base-`N` digits of the remaining bytes
interpreted as a big-endian base-256 number. -/

/-- Number of leading zero bytes of a byte string. -/
def leadZeroCount : List Nat → Nat
  | 0 :: rest => leadZeroCount rest + 1
  | _ => 0

/-- Number of leading characters satisfying `p`. -/
def countLeading (p : Char → Bool) : List Char → Nat
  | [] => 0
  | c :: rest => if p c then countLeading p rest + 1 else 0

/-- A byte string as a big-endian base-256 number. -/
def bytesToNat (bs : List Nat) : Nat := Nat.ofDigits 256 bs.reverse

/-- The big-endian base-256 bytes of a number (no leading zero bytes). -/
def natToBytes (n : Nat) : List Nat := (Nat.digits 256 n).reverse

/-- Index of a character in an alphabet. -/
def lookupIdx (alpha : List Char) (c : Char) : Option Nat :=
  match alpha with
  | [] => none
  | a :: rest => if a = c then some 0 else (lookupIdx rest c).map (· + 1)

/-- A base alphabet: at least two distinct digit characters. -/
structure BaseAlphabet where
  chars : List Char
  two_le : 2 ≤ chars.length
  nodup : chars.Nodup

/-- Big-number base encoding of a byte string over an alphabet. -/
def baseEncode (A : BaseAlphabet) (bs : List Nat) : List Char :=
  List.replicate (leadZeroCount bs) (A.chars.headD ' ')
    ++ (Nat.digits A.chars.length (bytesToNat bs)).reverse.map (fun d => A.chars.getD d ' ')

/-- Big-number base decoding over an alphabet; `none` on any character
outside the alphabet. -/
def baseDecode (A : BaseAlphabet) (cs : List Char) : Option (List Nat) :=
  let z := countLeading (fun c => c == A.chars.headD ' ') cs
  match (cs.drop z).mapM (lookupIdx A.chars) with
  | none => none
  | some ds => some (List.replicate z 0
      ++ natToBytes (ds.foldl (fun acc d => acc * A.chars.length + d) 0))

/-! ## Multibase (go-multibase): one-letter code character + base body -/

/-- The multibase encodings modelled here (a representative subtable of
go-multibase's big-number bases; Base58BTC is the one this implementation
emits). -/
inductive MultibaseEncoding where
  | base10
  | base36
  | base58btc
deriving DecidableEq

/-- The multibase code character identifying each encoding. -/
def multibaseCode : MultibaseEncoding → Char
  | .base10 => '9'
  | .base36 => 'k'
  | .base58btc => 'z'

def base10Alpha : BaseAlphabet :=
  ⟨"0123456789".toList, by decide, by decide⟩

def base36Alpha : BaseAlphabet :=
  ⟨"0123456789abcdefghijklmnopqrstuvwxyz".toList, by decide, by decide⟩

def base58Alpha : BaseAlphabet :=
  ⟨"123456789ABCDEFGHJKLMNPQRSTUVWXYZabcdefghijkmnopqrstuvwxyz".toList, by decide, by decide⟩

def multibaseAlphabet : MultibaseEncoding → BaseAlphabet
  | .base10 => base10Alpha
  | .base36 => base36Alpha
  | .base58btc => base58Alpha

/-- Go `multibase.Encode`: the code character followed by the base body. -/
def multibaseEncode (e : MultibaseEncoding) (bs : List Nat) : List Char :=
  multibaseCode e :: baseEncode (multibaseAlphabet e) bs

/-- The encoding selected by a leading code character, if known. -/
def encodingForCode (c : Char) : Option MultibaseEncoding :=
  if c = '9' then some .base10
  else if c = 'k' then some .base36
  else if c = 'z' then some .base58btc
  else none

/-- Go `multibase.Decode`: dispatch on the first character (any known
multibase code is accepted), then decode the body in that base. -/
def multibaseDecode (cs : List Char) : Option (List Nat) :=
  match cs with
  | [] => none
  | c :: rest =>
    match encodingForCode c with
    | none => none
    | some e => baseDecode (multibaseAlphabet e) rest

/-! ## Multihash (go-multihash) -/

/-- The SHA2-256 multihash code (`multihash.SHA2_256`). -/
def SHA2_256 : Nat := 0x12

/-- The KECCAK-224 multihash code (used by the repository's tests). -/
def KECCAK_224 : Nat := 0x1a

/-- Codes accepted by `multihash.Encode` (a representative subtable). -/
def validMultihashCodes : List Nat := [0x11, 0x12, 0x13, 0x14, 0x1a, 0x1b, 0x1c, 0x1d]

/-- A decoded multihash (`multihash.DecodedMultihash`, without the display name). -/
structure DecodedMultihash where
  code : Nat
  length : Nat
  digest : List Nat
deriving DecidableEq

/-- Go `multihash.Encode(buf, code)`: `<varint code><varint length><digest>`;
errors on an unknown code. -/
def multihashEncode (hash : List Nat) (code : Nat) : Except String (List Nat) :=
  if code ∈ validMultihashCodes then
    .ok (uvarintEncode code ++ uvarintEncode hash.length ++ hash)
  else .error "unknown multihash code"

/-- Go `multihash.Decode`: read the code and length varints and check that the
remaining digest has exactly the announced length. -/
def multihashDecode (buf : List Nat) : Option DecodedMultihash :=
  match uvarintDecode buf with
  | none => none
  | some (code, rest) =>
    match uvarintDecode rest with
    | none => none
    | some (len, digest) =>
      if digest.length = len then some ⟨code, len, digest⟩ else none

/-! ## Multiaddrs and the mafmt pattern language -/

/-- go-multiaddr protocol codes used by this transport. -/
def P_IP4 : Nat := 4
def P_TCP : Nat := 6
def P_IP6 : Nat := 41
def P_UDP : Nat := 273
def P_QUIC : Nat := 460
def P_WEBTRANSPORT : Nat := 465
def P_CERTHASH : Nat := 466

/-- One multiaddr component: a protocol code and its (text) value. -/
structure MaComponent where
  code : Nat
  value : List Char
deriving DecidableEq

/-- A multiaddr is its ordered list of components. -/
abbrev Multiaddr := List MaComponent

/-- The go-multiaddr-fmt pattern language: `Base` matches one component by
code, `And` sequences, `Or` tries alternatives in order. -/
inductive MaPattern where
  | base (code : Nat)
  | seq (l r : MaPattern)
  | alt (l r : MaPattern)

/-- mafmt partial matching: consume components, returning the rest. -/
def runPattern : MaPattern → Multiaddr → Option Multiaddr
  | .base _, [] => none
  | .base code, c :: rest => if c.code = code then some rest else none
  | .seq l r, cs =>
    match runPattern l cs with
    | none => none
    | some rest => runPattern r rest
  | .alt l r, cs =>
    match runPattern l cs with
    | some rest => some rest
    | none => runPattern r cs

/-- mafmt `Pattern.Matches`: the whole address must be consumed. -/
def patternMatches (p : MaPattern) (a : Multiaddr) : Bool :=
  decide (runPattern p a = some [])

/-- The pattern `mafmt.IP` (restricted to the address families the claims mention). -/
def mafmtIP : MaPattern := .alt (.base P_IP4) (.base P_IP6)

/-- The matcher `webtransportMatcher = mafmt.And(mafmt.IP, mafmt.Base(P_UDP),
mafmt.Base(P_QUIC), mafmt.Base(P_WEBTRANSPORT))` from multiaddr.go. -/
def webtransportMatcher : MaPattern :=
  .seq mafmtIP (.seq (.base P_UDP) (.seq (.base P_QUIC) (.base P_WEBTRANSPORT)))

/-! ## multiaddr.go -/

/-- The address `ma.StringCast("/quic/webtransport")` (`webtransportMA` in multiaddr.go). -/
def webtransportMA : Multiaddr := [⟨P_QUIC, []⟩, ⟨P_WEBTRANSPORT, []⟩]

/-- An IP address literal (the text form carried in the component). -/
inductive IpAddr where
  | v4 (s : List Char)
  | v6 (s : List Char)
deriving DecidableEq

/-- A Go `net.Addr` as far as this transport distinguishes them. -/
inductive NetAddr where
  | udp (ip : IpAddr) (port : Nat)
  | tcp (ip : IpAddr) (port : Nat)
  | other
deriving DecidableEq

/-- The network component for an IP literal. -/
def ipComponent : IpAddr → MaComponent
  | .v4 s => ⟨P_IP4, s⟩
  | .v6 s => ⟨P_IP6, s⟩

/-- Decimal text of a port number. -/
def portValue (port : Nat) : List Char := Nat.toDigits 10 port

/-- Go `manet.FromNetAddr`: a UDP or TCP endpoint becomes `ip/port`; other
endpoint kinds are rejected. -/
def manetFromNetAddr : NetAddr → Except String Multiaddr
  | .udp ip port => .ok [ipComponent ip, ⟨P_UDP, portValue port⟩]
  | .tcp ip port => .ok [ipComponent ip, ⟨P_TCP, portValue port⟩]
  | .other => .error "unknown network type"

/-- Go `Multiaddr.ValueForProtocol`: the value of the first component with the
given code; errors when absent. -/
def valueForProtocol (a : Multiaddr) (code : Nat) : Except String (List Char) :=
  match a.find? (fun c => c.code == code) with
  | some c => .ok c.value
  | none => .error "protocol not found in multiaddr"

/-- Function `toWebtransportMultiaddr` from multiaddr.go: convert the bound endpoint,
require a UDP component, and encapsulate `/quic/webtransport`. -/
def toWebtransportMultiaddr (na : NetAddr) : Except String Multiaddr :=
  match manetFromNetAddr na with
  | .error e => .error e
  | .ok addr =>
    match valueForProtocol addr P_UDP with
    | .error _ => .error "not a UDP address"
    | .ok _ => .ok (addr ++ webtransportMA)

/-- The values of the certhash components of an address, in positional order
(the `ma.ForEach` collection loop of `extractCertHashes`). -/
def certHashValues (addr : Multiaddr) : List (List Char) :=
  (addr.filter (fun c => c.code == P_CERTHASH)).map (fun c => c.value)

/-- Decoding of one collected certhash value: multibase, then multihash, with
the error messages of `extractCertHashes`. -/
def decodeCertHashStr (s : List Char) : Except String DecodedMultihash :=
  match multibaseDecode s with
  | none => .error "failed to multibase-decode certificate hash"
  | some ch =>
    match multihashDecode ch with
    | none => .error "failed to multihash-decode certificate hash"
    | some dh => .ok dh

/-- The decoding loop of `extractCertHashes`: first failure aborts the whole
call with that error. -/
def extractCertHashesLoop : List (List Char) → Except String (List DecodedMultihash)
  | [] => .ok []
  | s :: rest =>
    match decodeCertHashStr s with
    | .error e => .error e
    | .ok dh =>
      match extractCertHashesLoop rest with
      | .error e => .error e
      | .ok dhs => .ok (dh :: dhs)

/-- Function `extractCertHashes` from multiaddr.go. -/
def extractCertHashes (addr : Multiaddr) : Except String (List DecodedMultihash) :=
  extractCertHashesLoop (certHashValues addr)

/-- Go `ma.NewComponent`: build a component, validating the value against the
protocol's transcoder (for certhash: the value must multibase-decode). -/
def newComponent (code : Nat) (value : List Char) : Except String MaComponent :=
  if code = P_CERTHASH then
    match multibaseDecode value with
    | some _ => .ok ⟨code, value⟩
    | none => .error "invalid certhash value"
  else .ok ⟨code, value⟩

/-- Function `addrComponentForCert` from multiaddr.go: SHA2-256 multihash of the raw
digest, multibase-encoded with Base58BTC, wrapped as a certhash component. -/
def addrComponentForCert (hash : List Nat) : Except String MaComponent :=
  match multihashEncode hash SHA2_256 with
  | .error e => .error e
  | .ok mh => newComponent P_CERTHASH (multibaseEncode .base58btc mh)

/-! ## Dial/listen validity (transport.go is not under src/) -/

/-- Trailing certhash components of an address, removed. -/
def dropTrailingCertHashes (a : Multiaddr) : Multiaddr :=
  (a.reverse.dropWhile (fun c => c.code == P_CERTHASH)).reverse

/-- Modelled from the spec: `CanDial` lives in transport.go, which is not
under src/. Per the spec it is a pure structural predicate: network + port +
the two protocol markers in order (the in-src `webtransportMatcher`), with
zero or more trailing certhash components allowed. -/
def isDialable (a : Multiaddr) : Bool :=
  patternMatches webtransportMatcher (dropTrailingCertHashes a)

/-- Modelled from the spec: `Listen`'s address validity check lives in
transport.go, which is not under src/. Per the spec a listen address must
match the structural pattern exactly, which forbids certhash components. -/
def isListenable (a : Multiaddr) : Bool :=
  patternMatches webtransportMatcher a

/-! ## The listener (listener.go) -/

/-- The constant `queueLen = 16` from listener.go. -/
def queueLen : Nat := 16

/-- The constant `handshakeTimeout = 10 * time.Second` from listener.go, in seconds. -/
def handshakeTimeoutSeconds : Nat := 10

/-- A raw WebTransport session (`*webtransport.Conn`). -/
structure WtSession where
  id : Nat
deriving DecidableEq

/-- A bidirectional stream of a session (`webtransport.Stream`). -/
structure WtStream where
  id : Nat
deriving DecidableEq

/-- A remote peer's long-term public key. -/
structure PubKey where
  id : Nat
deriving DecidableEq

/-- A fully authenticated connection (`tpt.CapableConn`). -/
structure CapableConn where
  session : WtSession
  remote : PubKey
deriving DecidableEq

/-- Outcome of a send on a buffered Go channel: delivered when a buffer slot
is free, otherwise the sender blocks. -/
inductive ChanSendOutcome where
  | delivered (q : List WtSession)
  | wouldBlock
deriving DecidableEq

/-- Semantics of `ch <- c` on a buffered channel of capacity `cap` with no
waiting receiver. -/
def bufferedChanSend (cap : Nat) (q : List WtSession) (c : WtSession) : ChanSendOutcome :=
  if q.length < cap then .delivered (q ++ [c]) else .wouldBlock

/-- The raw-accept callback's `ln.queue <- c` from listener.go (the source
marks overflow handling as a TODO: on a full queue this send blocks the
HTTP handler rather than rejecting the session). -/
def rawAcceptPush (q : List WtSession) (c : WtSession) : ChanSendOutcome :=
  bufferedChanSend queueLen q c

/-- The sessions `⟨0⟩, …, ⟨n-1⟩`, a concrete queue content. -/
def sessionsUpTo (n : Nat) : List WtSession :=
  (List.range n).map WtSession.mk

/-- The listener's collaborators, as response functions: `c.AcceptStream`,
`noise.SecureInbound` (the identity handshake), and — modelled from the spec,
since the resource-manager/gating plumbing (`newConn`, transport.go) is not
under src/ — the resource policy's `OpenConnection`/`SetPeer` and the gater's
`InterceptSecured`, each answering allow/deny per session or peer. -/
structure HandshakeEnv where
  acceptStream : WtSession → Option WtStream
  secureInbound : WtStream → Option PubKey
  openConnection : WtSession → Bool
  setPeer : PubKey → Bool
  interceptSecured : PubKey → Bool

/-- Failure stages of the inbound handshake pipeline. -/
inductive HsError where
  | cancelled
  | streamFailed
  | authFailed
  | resourceDenied
  | peerDenied
  | gated
deriving DecidableEq

/-- The collaborator calls the handshake task makes, in order. -/
inductive HsStep where
  | acceptStreamStep
  | secureInboundStep
  | openConnectionStep
  | setPeerStep
  | interceptSecuredStep
deriving DecidableEq

/-- The full, successful collaborator-call order of the handshake pipeline. -/
def fullHandshakeTrace : List HsStep :=
  [.acceptStreamStep, .secureInboundStep, .openConnectionStep, .setPeerStep, .interceptSecuredStep]

/-- Function `listener.handshake` from listener.go, with the collaborator-call trace:
under a context derived from the listener's (cancelled contexts abort), open
the session's first stream, run the inbound identity handshake, then — the
part modelled from the spec, the plumbing being outside src/ — apply
resource accounting (`OpenConnection`, `SetPeer`) and connection gating
(`InterceptSecured`); any denial is an error. -/
def handshake (env : HandshakeEnv) (ctxDone : Bool) (c : WtSession) :
    Except HsError CapableConn × List HsStep :=
  if ctxDone then (.error .cancelled, [])
  else
    match env.acceptStream c with
    | none => (.error .streamFailed, [.acceptStreamStep])
    | some str =>
      match env.secureInbound str with
      | none => (.error .authFailed, [.acceptStreamStep, .secureInboundStep])
      | some pk =>
        if env.openConnection c then
          if env.setPeer pk then
            if env.interceptSecured pk then
              (.ok ⟨c, pk⟩, fullHandshakeTrace)
            else (.error .gated, fullHandshakeTrace)
          else (.error .peerDenied, [.acceptStreamStep, .secureInboundStep, .openConnectionStep, .setPeerStep])
        else (.error .resourceDenied, [.acceptStreamStep, .secureInboundStep, .openConnectionStep])

/-- What the spawned handshake goroutine leaves behind: a connection pushed
onto the results channel, or nothing pushed and the session closed. -/
structure TaskOutcome where
  pushed : Option CapableConn
  sessionClosed : Bool
deriving DecidableEq

/-- The body of the goroutine `Accept` spawns per popped raw session: on any
handshake error, log, close the session and push nothing; on success, push
the connection. -/
def runHandshakeTask (env : HandshakeEnv) (ctxDone : Bool) (c : WtSession) : TaskOutcome :=
  match (handshake env ctxDone c).1 with
  | .error _ => ⟨none, true⟩
  | .ok conn => ⟨some conn, false⟩

/-- The connections a task outcome adds to the results channel. -/
def pushedConns (o : TaskOutcome) : List CapableConn :=
  match o.pushed with
  | none => []
  | some conn => [conn]

/-- The state visible to one `Accept` call: the listener context, the shared
raw-session queue `l.queue`, the spawned-but-unfinished handshake tasks, and
the call's local results channel. -/
structure AcceptState where
  ctxDone : Bool
  rawQueue : List WtSession
  pending : List WtSession
  results : List CapableConn
deriving DecidableEq

/-- The two return forms of `listener.Accept`: `(nil, errClosed)` or a
connection with no error. -/
inductive AcceptResult where
  | closedErr
  | accepted (conn : CapableConn)
deriving DecidableEq

/-- One `Accept` call's possible executions, as a nondeterministic relation
mirroring listener.go's loop: return `errClosed` whenever the listener
context is done (checked at each loop head, and a case of the select); pop a
raw session and spawn its handshake task; return the head of the results
channel; and the concurrent environment steps — a spawned task finishing
(pushing its outcome), the listener being closed, a new raw session being
accepted into a free queue slot. -/
inductive AcceptRun (env : HandshakeEnv) : AcceptState → AcceptResult → Prop where
  | retClosed (s : AcceptState) : s.ctxDone = true → AcceptRun env s .closedErr
  | retConn (s : AcceptState) (conn : CapableConn) (rest : List CapableConn) :
      s.results = conn :: rest → AcceptRun env s (.accepted conn)
  | popSpawn (s : AcceptState) (c : WtSession) (q : List WtSession) (r : AcceptResult) :
      s.rawQueue = c :: q →
      AcceptRun env { s with rawQueue := q, pending := c :: s.pending } r →
      AcceptRun env s r
  | taskDone (s : AcceptState) (c : WtSession) (p1 p2 : List WtSession) (r : AcceptResult) :
      s.pending = p1 ++ c :: p2 →
      AcceptRun env { s with pending := p1 ++ p2, results := s.results ++ pushedConns (runHandshakeTask env s.ctxDone c) } r →
      AcceptRun env s r
  | interClose (s : AcceptState) (r : AcceptResult) :
      AcceptRun env { s with ctxDone := true } r → AcceptRun env s r
  | rawArrival (s : AcceptState) (c : WtSession) (r : AcceptResult) :
      s.rawQueue.length < queueLen →
      AcceptRun env { s with rawQueue := s.rawQueue ++ [c] } r →
      AcceptRun env s r

/-- A connection some successful (uncancelled) handshake run produces. -/
def connFromSuccessfulHandshake (env : HandshakeEnv) (conn : CapableConn) : Prop :=
  ∃ c, (handshake env false c).1 = .ok conn

/-- The listener lifecycle flags touched by `Close`: the root context, the
WebTransport server, and the `serverClosed` channel that `Serve`'s goroutine
closes on return. -/
structure ListenerLifecycle where
  ctxDone : Bool
  serverClosed : Bool
  serveDone : Bool
deriving DecidableEq

/-- Function `listener.Close` from listener.go: cancel the context, close the server
(which unblocks `Serve`, so its goroutine finishes), wait on `serverClosed`,
and return the server-close error. -/
def closeListener (_ : ListenerLifecycle) (serverCloseErr : Option String) :
    ListenerLifecycle × Option String :=
  (⟨true, true, true⟩, serverCloseErr)

/-! ## The listener's advertised address (certManager is not under src/) -/

/-- Modelled from the spec: the certificate manager (not under src/)
advertises the 1–2 currently valid hash components, or none when a static
TLS configuration overrides certificate management. -/
structure CertManagerView where
  advertised : List MaComponent
  staticTLS : Bool

/-- Modelled from the spec: `certManager.AddrComponent()` — the advertised
hash components, empty in static-TLS mode. -/
def certManagerAddrComponent (cm : CertManagerView) : Multiaddr :=
  if cm.staticTLS then [] else cm.advertised

/-- Function `listener.Multiaddr` from listener.go: on every call, encapsulate the
certificate manager's current components onto the stored base address. -/
def listenerMultiaddr (base : Multiaddr) (cm : CertManagerView) : Multiaddr :=
  base ++ certManagerAddrComponent cm

/-! ## Concrete collaborator environments used by the witnesses -/

/-- An environment in which every session handshakes and every check passes. -/
def envAll : HandshakeEnv :=
  ⟨fun s => some ⟨s.id⟩, fun st => some ⟨st.id⟩, fun _ => true, fun _ => true, fun _ => true⟩

/-- An environment in which the identity handshake always fails. -/
def envAuthFail : HandshakeEnv :=
  ⟨fun s => some ⟨s.id⟩, fun _ => none, fun _ => true, fun _ => true, fun _ => true⟩

/-- The connection `envAll` produces for session 0. -/
def conn0 : CapableConn := ⟨⟨0⟩, ⟨0⟩⟩

/-! ## Varint lemmas -/

theorem uvarintEncode_small {n : Nat} (h : n < 128) : uvarintEncode n = [n] := by
  unfold uvarintEncode; simp [h]

theorem uvarintEncode_large {n : Nat} (h : ¬ n < 128) :
    uvarintEncode n = (n % 128 + 128) :: uvarintEncode (n / 128) := by
  conv_lhs => rw [uvarintEncode.eq_def]
  simp [h]

theorem uvarintDecode_encode_append (n : Nat) :
    ∀ rest, uvarintDecode (uvarintEncode n ++ rest) = some (n, rest) := by
  induction n using Nat.strong_induction_on with
  | _ n ih =>
    intro rest
    by_cases h : n < 128
    · rw [uvarintEncode_small h]
      simp [uvarintDecode, h]
    · rw [uvarintEncode_large h]
      have hd : n / 128 < n := Nat.div_lt_self (by omega) (by omega)
      have h2 : ¬ (n % 128 + 128 < 128) := by omega
      have hrec := ih (n / 128) hd rest
      simp only [List.cons_append, uvarintDecode, if_neg h2, List.append_eq]
      rw [hrec]
      simp
      omega

theorem uvarintEncode_bytes_lt (n : Nat) : ∀ b ∈ uvarintEncode n, b < 256 := by
  induction n using Nat.strong_induction_on with
  | _ n ih =>
    by_cases h : n < 128
    · rw [uvarintEncode_small h]
      intro b hb
      simp at hb
      omega
    · rw [uvarintEncode_large h]
      intro b hb
      rcases List.mem_cons.mp hb with h1 | h1
      · omega
      · exact ih _ (Nat.div_lt_self (by omega) (by omega)) b h1

/-! ## Leading-zero and alphabet lemmas -/

theorem leadZero_split (bs : List Nat) :
    bs = List.replicate (leadZeroCount bs) 0 ++ bs.drop (leadZeroCount bs) := by
  induction bs with
  | nil => rfl
  | cons b t ih =>
    cases b with
    | zero =>
      have h : leadZeroCount (0 :: t) = leadZeroCount t + 1 := rfl
      rw [h, List.replicate_succ, List.cons_append, List.drop_succ_cons]
      exact congrArg (List.cons 0) ih
    | succ m =>
      have h : leadZeroCount ((m + 1) :: t) = 0 := rfl
      rw [h]
      rfl

theorem leadZero_drop_head (bs : List Nat) :
    ∀ b t, bs.drop (leadZeroCount bs) = b :: t → b ≠ 0 := by
  induction bs with
  | nil =>
    intro b t h
    simp at h
  | cons x xs ih =>
    cases x with
    | zero =>
      intro b t h
      exact ih b t (by simpa using h)
    | succ m =>
      intro b t h
      have h0 : leadZeroCount ((m + 1) :: xs) = 0 := rfl
      rw [h0, List.drop_zero] at h
      cases h
      omega

theorem countLeading_replicate_append (p : Char → Bool) (c : Char) (hc : p c = true)
    (l : List Char) (hl : ∀ b t, l = b :: t → p b = false) (z : Nat) :
    countLeading p (List.replicate z c ++ l) = z := by
  induction z with
  | zero =>
    cases l with
    | nil => rfl
    | cons b t => simp [countLeading, hl b t rfl]
  | succ k ih =>
    simp [List.replicate_succ, countLeading, hc, ih]

theorem lookupIdx_getD (alpha : List Char) (hnd : alpha.Nodup) :
    ∀ d, d < alpha.length → lookupIdx alpha (alpha.getD d ' ') = some d := by
  induction alpha with
  | nil =>
    intro d hd
    simp at hd
  | cons a rest ih =>
    intro d hd
    cases d with
    | zero => simp [lookupIdx, List.getD_cons_zero]
    | succ k =>
      have hk : k < rest.length := by simpa using hd
      have hne : a ≠ rest.getD k ' ' := by
        intro he
        have hmem : rest.getD k ' ' ∈ rest := by
          rw [List.getD_eq_getElem rest ' ' hk]
          exact List.getElem_mem hk
        exact (List.nodup_cons.mp hnd).1 (he ▸ hmem)
      have hrec := ih (List.nodup_cons.mp hnd).2 k hk
      rw [List.getD_cons_succ]
      simp only [lookupIdx]
      rw [if_neg hne, hrec]
      rfl

theorem mapM_lookupIdx_map (alpha : List Char) (hnd : alpha.Nodup) :
    ∀ ds : List Nat, (∀ d ∈ ds, d < alpha.length) →
    (ds.map (fun d => alpha.getD d ' ')).mapM (lookupIdx alpha) = some ds := by
  intro ds
  induction ds with
  | nil => intro _; rfl
  | cons d t ih =>
    intro hds
    simp only [List.map_cons, List.mapM_cons]
    rw [lookupIdx_getD alpha hnd d (hds d (by simp))]
    rw [ih (fun x hx => hds x (by simp [hx]))]
    rfl

theorem foldl_reverse_ofDigits_gen (b : Nat) :
    ∀ (L : List Nat) (acc : Nat),
      L.reverse.foldl (fun a d => a * b + d) acc = acc * b ^ L.length + Nat.ofDigits b L := by
  intro L
  induction L with
  | nil =>
    intro acc
    simp [Nat.ofDigits_nil]
  | cons d t ih =>
    intro acc
    simp only [List.reverse_cons, List.foldl_append, List.foldl_cons, List.foldl_nil]
    rw [ih acc, Nat.ofDigits_cons, List.length_cons, pow_succ]
    ring

theorem ofDigits_replicate_zero (b : Nat) : ∀ z, Nat.ofDigits b (List.replicate z 0) = 0 := by
  intro z
  induction z with
  | zero => rfl
  | succ k ih => simp [List.replicate_succ, Nat.ofDigits_cons, ih]

/-! ## Base-alphabet round trip -/

theorem bytesToNat_replicate_zero_append (z : Nat) (bs : List Nat) :
    bytesToNat (List.replicate z 0 ++ bs) = bytesToNat bs := by
  unfold bytesToNat
  rw [List.reverse_append, List.reverse_replicate, Nat.ofDigits_append,
    ofDigits_replicate_zero]
  simp

theorem bytesToNat_cons_ne_zero {b : Nat} (t : List Nat) (hb : b ≠ 0) :
    bytesToNat (b :: t) ≠ 0 := by
  unfold bytesToNat
  rw [List.reverse_cons, Nat.ofDigits_append]
  have h1 : Nat.ofDigits 256 [b] = b := by simp [Nat.ofDigits_cons, Nat.ofDigits_nil]
  rw [h1]
  have h2 : 0 < 256 ^ t.reverse.length * b :=
    Nat.mul_pos (pow_pos (by omega) _) (Nat.pos_of_ne_zero hb)
  omega

theorem getLast_eq_of_concat {α : Type} (l l2 : List α) (a : α) (heq : l = l2 ++ [a]) :
    ∀ h : l ≠ [], l.getLast h = a := by
  subst heq
  intro _
  exact List.getLast_append_singleton l2

theorem natToBytes_bytesToNat (bs : List Nat) (hbs : ∀ b ∈ bs, b < 256)
    (hhead : ∀ b t, bs = b :: t → b ≠ 0) :
    natToBytes (bytesToNat bs) = bs := by
  cases bs with
  | nil => simp [natToBytes, bytesToNat]
  | cons b t =>
    unfold natToBytes bytesToNat
    have hlast : ∀ h : (b :: t).reverse ≠ [], ((b :: t).reverse).getLast h ≠ 0 := by
      intro hne
      rw [getLast_eq_of_concat ((b :: t).reverse) t.reverse b (List.reverse_cons b t) hne]
      exact hhead b t rfl
    rw [Nat.digits_ofDigits 256 (by omega) ((b :: t).reverse)
      (fun l hl => hbs l (List.mem_reverse.mp hl)) hlast]
    exact List.reverse_reverse _

theorem baseDecode_eq (A : BaseAlphabet) (cs : List Char) :
    baseDecode A cs =
      match (cs.drop (countLeading (fun c => c == A.chars.headD ' ') cs)).mapM (lookupIdx A.chars) with
      | none => none
      | some ds => some (List.replicate (countLeading (fun c => c == A.chars.headD ' ') cs) 0
          ++ natToBytes (ds.foldl (fun acc d => acc * A.chars.length + d) 0)) := rfl

theorem baseDecode_of_mapM (A : BaseAlphabet) (cs : List Char) (ds : List Nat)
    (h : (cs.drop (countLeading (fun c => c == A.chars.headD ' ') cs)).mapM (lookupIdx A.chars) = some ds) :
    baseDecode A cs = some (List.replicate (countLeading (fun c => c == A.chars.headD ' ') cs) 0
      ++ natToBytes (ds.foldl (fun acc d => acc * A.chars.length + d) 0)) := by
  rw [baseDecode_eq, h]

theorem baseEncode_eq (A : BaseAlphabet) (bs : List Nat) :
    baseEncode A bs = List.replicate (leadZeroCount bs) (A.chars.headD ' ')
      ++ (Nat.digits A.chars.length (bytesToNat (bs.drop (leadZeroCount bs)))).reverse.map
          (fun d => A.chars.getD d ' ') := by
  unfold baseEncode
  rw [show bytesToNat bs = bytesToNat (bs.drop (leadZeroCount bs)) from by
    conv_lhs => rw [leadZero_split bs]
    exact bytesToNat_replicate_zero_append _ _]

theorem headD_eq_getD_zero (l : List Char) : l.headD ' ' = l.getD 0 ' ' := by
  cases l <;> rfl

theorem getD_ne_of_nodup (l : List Char) (hnd : l.Nodup) (i j : Nat)
    (hi : i < l.length) (hj : j < l.length) (hij : i ≠ j) :
    l.getD i ' ' ≠ l.getD j ' ' := by
  rw [List.getD_eq_getElem l ' ' hi, List.getD_eq_getElem l ' ' hj]
  intro he
  exact hij (hnd.getElem_inj_iff.mp he)

theorem drop_replicate_append (z : Nat) (c : Char) (l : List Char) :
    (List.replicate z c ++ l).drop z = l := by
  induction z with
  | zero => simp
  | succ k ih => simp [List.replicate_succ, ih]

theorem baseDecode_baseEncode (A : BaseAlphabet) (bs : List Nat)
    (hbs : ∀ b ∈ bs, b < 256) : baseDecode A (baseEncode A bs) = some bs := by
  have hN : 1 < A.chars.length := by have := A.two_le; omega
  have hdsb : ∀ d ∈ (Nat.digits A.chars.length (bytesToNat (bs.drop (leadZeroCount bs)))).reverse,
      d < A.chars.length := fun d hd => Nat.digits_lt_base hN (List.mem_reverse.mp hd)
  have hhd : ∀ b t,
      (Nat.digits A.chars.length (bytesToNat (bs.drop (leadZeroCount bs)))).reverse.map
        (fun d => A.chars.getD d ' ') = b :: t →
      (b == A.chars.headD ' ') = false := by
    intro b t hbt
    rcases hrev : (Nat.digits A.chars.length (bytesToNat (bs.drop (leadZeroCount bs)))).reverse
      with _ | ⟨d, ds2⟩
    · rw [hrev] at hbt
      simp at hbt
    · rw [hrev] at hbt
      simp only [List.map_cons, List.cons.injEq] at hbt
      obtain ⟨hb, -⟩ := hbt
      have hL : Nat.digits A.chars.length (bytesToNat (bs.drop (leadZeroCount bs)))
          = ds2.reverse ++ [d] := by
        rw [← List.reverse_reverse (Nat.digits A.chars.length (bytesToNat (bs.drop (leadZeroCount bs)))),
          hrev, List.reverse_cons]
      have hnne : bytesToNat (bs.drop (leadZeroCount bs)) ≠ 0 := by
        intro h0
        rw [h0] at hL
        simp at hL
      have hdne : d ≠ 0 := by
        have hgl := Nat.getLast_digit_ne_zero A.chars.length hnne
        have he := getLast_eq_of_concat _ ds2.reverse d hL
          (Nat.digits_ne_nil_iff_ne_zero.mpr hnne)
        rw [he] at hgl
        exact hgl
      have hdlt : d < A.chars.length := by
        apply hdsb
        rw [hrev]
        exact List.mem_cons_self d ds2
      rw [← hb, headD_eq_getD_zero]
      exact beq_eq_false_iff_ne.mpr
        (getD_ne_of_nodup A.chars A.nodup d 0 hdlt (by omega) hdne)
  have hcl : countLeading (fun c => c == A.chars.headD ' ')
      (List.replicate (leadZeroCount bs) (A.chars.headD ' ')
        ++ (Nat.digits A.chars.length (bytesToNat (bs.drop (leadZeroCount bs)))).reverse.map
            (fun d => A.chars.getD d ' ')) = leadZeroCount bs :=
    countLeading_replicate_append _ (A.chars.headD ' ') (by simp) _ hhd _
  have hdropbs : ∀ b ∈ bs.drop (leadZeroCount bs), b < 256 :=
    fun b hb => hbs b ((List.drop_sublist _ _).mem hb)
  have hfold : ((Nat.digits A.chars.length (bytesToNat (bs.drop (leadZeroCount bs)))).reverse).foldl
      (fun acc d => acc * A.chars.length + d) 0 = bytesToNat (bs.drop (leadZeroCount bs)) := by
    rw [foldl_reverse_ofDigits_gen]
    simp [Nat.ofDigits_digits]
  rw [baseEncode_eq]
  rw [baseDecode_of_mapM A _ ((Nat.digits A.chars.length (bytesToNat (bs.drop (leadZeroCount bs)))).reverse)
    (by
      rw [hcl, drop_replicate_append]
      exact mapM_lookupIdx_map A.chars A.nodup _ hdsb)]
  rw [hcl, hfold]
  rw [natToBytes_bytesToNat (bs.drop (leadZeroCount bs)) hdropbs
    (fun b t hbt => leadZero_drop_head bs b t hbt)]
  conv_rhs => rw [leadZero_split bs]

/-! ## Multibase and multihash round trips -/

theorem multibaseDecode_encode (e : MultibaseEncoding) (bs : List Nat)
    (hbs : ∀ b ∈ bs, b < 256) :
    multibaseDecode (multibaseEncode e bs) = some bs := by
  have h := baseDecode_baseEncode (multibaseAlphabet e) bs hbs
  cases e <;> simpa [multibaseEncode, multibaseCode, multibaseDecode, encodingForCode,
    multibaseAlphabet] using h

theorem multihashDecode_encode (code : Nat) (hash : List Nat) :
    multihashDecode (uvarintEncode code ++ uvarintEncode hash.length ++ hash)
      = some ⟨code, hash.length, hash⟩ := by
  have h1 := uvarintDecode_encode_append code (uvarintEncode hash.length ++ hash)
  have h2 := uvarintDecode_encode_append hash.length hash
  unfold multihashDecode
  rw [List.append_assoc]
  simp [h1, h2]

theorem multihashBytes_lt (code : Nat) (hash : List Nat) (hh : ∀ b ∈ hash, b < 256) :
    ∀ b ∈ uvarintEncode code ++ uvarintEncode hash.length ++ hash, b < 256 := by
  intro b hb
  rcases List.mem_append.mp hb with h1 | h1
  · rcases List.mem_append.mp h1 with h2 | h2
    · exact uvarintEncode_bytes_lt code b h2
    · exact uvarintEncode_bytes_lt hash.length b h2
  · exact hh b h1

theorem decodeCertHashStr_encode (e : MultibaseEncoding) (code : Nat) (hash : List Nat)
    (hh : ∀ b ∈ hash, b < 256) :
    decodeCertHashStr (multibaseEncode e (uvarintEncode code ++ uvarintEncode hash.length ++ hash))
      = .ok ⟨code, hash.length, hash⟩ := by
  unfold decodeCertHashStr
  rw [multibaseDecode_encode e _ (multihashBytes_lt code hash hh)]
  show (match multihashDecode (uvarintEncode code ++ uvarintEncode hash.length ++ hash) with
    | none => Except.error "failed to multihash-decode certificate hash"
    | some dh => Except.ok dh) = Except.ok ⟨code, hash.length, hash⟩
  rw [multihashDecode_encode]

/-! ## The structure the webtransport matcher accepts -/

theorem runPattern_base_nil (code : Nat) : runPattern (.base code) [] = none := rfl

theorem runPattern_base_cons (code : Nat) (c : MaComponent) (rest : Multiaddr) :
    runPattern (.base code) (c :: rest) = if c.code = code then some rest else none := rfl

theorem runPattern_seq (l r : MaPattern) (cs : Multiaddr) :
    runPattern (.seq l r) cs =
      match runPattern l cs with
      | none => none
      | some rest => runPattern r rest := by
  cases cs <;> rfl

theorem runPattern_alt (l r : MaPattern) (cs : Multiaddr) :
    runPattern (.alt l r) cs =
      match runPattern l cs with
      | some rest => some rest
      | none => runPattern r cs := by
  cases cs <;> rfl

theorem runPattern_mafmtIP (c1 : MaComponent) (rest : Multiaddr) :
    runPattern mafmtIP (c1 :: rest) =
      if c1.code = P_IP4 ∨ c1.code = P_IP6 then some rest else none := by
  rw [mafmtIP, runPattern_alt, runPattern_base_cons, runPattern_base_cons]
  by_cases h1 : c1.code = P_IP4
  · simp [h1]
  · by_cases h2 : c1.code = P_IP6 <;> simp [h1, h2, show P_IP6 ≠ P_IP4 by decide]

theorem runPattern_webtransportMatcher (a : Multiaddr) :
    runPattern webtransportMatcher a =
      match a with
      | c1 :: c2 :: c3 :: c4 :: rest =>
        if (c1.code = P_IP4 ∨ c1.code = P_IP6) ∧ c2.code = P_UDP ∧ c3.code = P_QUIC ∧
            c4.code = P_WEBTRANSPORT then some rest else none
      | _ => none := by
  rcases a with _ | ⟨c1, _ | ⟨c2, _ | ⟨c3, _ | ⟨c4, a5⟩⟩⟩⟩ <;>
    rw [webtransportMatcher, runPattern_seq]
  · rfl
  · rw [runPattern_mafmtIP]
    by_cases hip : c1.code = P_IP4 ∨ c1.code = P_IP6 <;>
      simp [hip, runPattern_seq, runPattern_base_nil]
  · rw [runPattern_mafmtIP]
    by_cases hip : c1.code = P_IP4 ∨ c1.code = P_IP6 <;>
      by_cases h2 : c2.code = P_UDP <;>
      simp [hip, h2, runPattern_seq, runPattern_base_cons, runPattern_base_nil]
  · rw [runPattern_mafmtIP]
    by_cases hip : c1.code = P_IP4 ∨ c1.code = P_IP6 <;>
      by_cases h2 : c2.code = P_UDP <;>
      by_cases h3 : c3.code = P_QUIC <;>
      simp [hip, h2, h3, runPattern_seq, runPattern_base_cons, runPattern_base_nil]
  · rw [runPattern_mafmtIP]
    by_cases hip : c1.code = P_IP4 ∨ c1.code = P_IP6 <;>
      by_cases h2 : c2.code = P_UDP <;>
      by_cases h3 : c3.code = P_QUIC <;>
      by_cases h4 : c4.code = P_WEBTRANSPORT <;>
      simp [hip, h2, h3, h4, runPattern_seq, runPattern_base_cons, runPattern_base_nil]

theorem webtransportMatcher_matches_iff (a : Multiaddr) :
    patternMatches webtransportMatcher a = true ↔
      ∃ c1 c2 c3 c4, a = [c1, c2, c3, c4] ∧ (c1.code = P_IP4 ∨ c1.code = P_IP6) ∧
        c2.code = P_UDP ∧ c3.code = P_QUIC ∧ c4.code = P_WEBTRANSPORT := by
  rw [patternMatches, decide_eq_true_eq, runPattern_webtransportMatcher]
  rcases a with _ | ⟨c1, _ | ⟨c2, _ | ⟨c3, _ | ⟨c4, a5⟩⟩⟩⟩
  · simp
  · simp
  · simp
  · simp
  · show (if (c1.code = P_IP4 ∨ c1.code = P_IP6) ∧ c2.code = P_UDP ∧ c3.code = P_QUIC ∧
        c4.code = P_WEBTRANSPORT then some a5 else none) = some [] ↔ _
    constructor
    · intro h
      split_ifs at h with hc
      · obtain ⟨hip, h2, h3, h4⟩ := hc
        simp only [Option.some.injEq] at h
        subst h
        exact ⟨c1, c2, c3, c4, rfl, hip, h2, h3, h4⟩
    · rintro ⟨d1, d2, d3, d4, heq, hip, h2, h3, h4⟩
      simp only [List.cons.injEq] at heq
      obtain ⟨rfl, rfl, rfl, rfl, ha5⟩ := heq
      subst ha5
      simp [hip, h2, h3, h4]

/-! ## Dial/listen validity lemmas -/

theorem dropWhile_append_of_all (p : MaComponent → Bool) (xs ys : List MaComponent)
    (h : ∀ x ∈ xs, p x = true) : (xs ++ ys).dropWhile p = ys.dropWhile p := by
  induction xs with
  | nil => rfl
  | cons x t ih =>
    simp only [List.cons_append, List.dropWhile_cons, h x (by simp)]
    exact ih (fun y hy => h y (by simp [hy]))

theorem dropTrailingCertHashes_append (l chs : Multiaddr)
    (hch : ∀ c ∈ chs, c.code = P_CERTHASH)
    (hlast : ∀ b t, l.reverse = b :: t → (b.code == P_CERTHASH) = false) :
    dropTrailingCertHashes (l ++ chs) = l := by
  unfold dropTrailingCertHashes
  rw [List.reverse_append]
  rw [dropWhile_append_of_all _ chs.reverse l.reverse
    (fun c hc => by simp [hch c (List.mem_reverse.mp hc)])]
  cases hrev : l.reverse with
  | nil =>
    simp only [List.dropWhile_nil, List.reverse_nil]
    exact (List.reverse_eq_nil_iff.mp hrev).symm
  | cons b t =>
    rw [List.dropWhile_cons, if_neg (by simp [hlast b t hrev])]
    rw [← hrev, List.reverse_reverse]

theorem mem_dropTrailingCertHashes (a : Multiaddr) (c : MaComponent)
    (h : c ∈ dropTrailingCertHashes a) : c ∈ a := by
  unfold dropTrailingCertHashes at h
  rw [List.mem_reverse] at h
  exact List.mem_reverse.mp ((List.dropWhile_sublist _).mem h)

theorem matches_shape (l : Multiaddr) (h : patternMatches webtransportMatcher l = true) :
    ∃ c1 c2 c3 c4, l = [c1, c2, c3, c4] ∧ (c1.code = P_IP4 ∨ c1.code = P_IP6) ∧
      c2.code = P_UDP ∧ c3.code = P_QUIC ∧ c4.code = P_WEBTRANSPORT :=
  (webtransportMatcher_matches_iff l).mp h

theorem matches_has_udp (l : Multiaddr) (h : patternMatches webtransportMatcher l = true) :
    ∃ c ∈ l, c.code = P_UDP := by
  obtain ⟨c1, c2, c3, c4, rfl, -, h2, -, -⟩ := matches_shape l h
  exact ⟨c2, by simp, h2⟩

theorem matches_has_quic (l : Multiaddr) (h : patternMatches webtransportMatcher l = true) :
    ∃ c ∈ l, c.code = P_QUIC := by
  obtain ⟨c1, c2, c3, c4, rfl, -, -, h3, -⟩ := matches_shape l h
  exact ⟨c3, by simp, h3⟩

theorem matches_no_certhash (l : Multiaddr) (h : patternMatches webtransportMatcher l = true) :
    ∀ c ∈ l, c.code ≠ P_CERTHASH := by
  obtain ⟨c1, c2, c3, c4, rfl, h1, h2, h3, h4⟩ := matches_shape l h
  intro c hc hcc
  rcases List.mem_cons.mp hc with rfl | hc
  · rcases h1 with h1 | h1 <;> rw [hcc] at h1 <;> exact absurd h1 (by decide)
  rcases List.mem_cons.mp hc with rfl | hc
  · rw [hcc] at h2
    exact absurd h2 (by decide)
  rcases List.mem_cons.mp hc with rfl | hc
  · rw [hcc] at h3
    exact absurd h3 (by decide)
  rcases List.mem_cons.mp hc with rfl | hc
  · rw [hcc] at h4
    exact absurd h4 (by decide)
  cases hc

/-- C4: dialability and listen-validity are pure structural predicates: an
`ip(4/6) / udp / quic / webtransport` address with any number of trailing
certhash components is dialable; an address with no udp component, or no quic
component, is neither dialable nor listenable — in particular the shape using
tcp in place of udp; and an address carrying a certhash component is never
listenable. -/
theorem dial_listen_structural :
    (∀ (c1 c2 c3 c4 : MaComponent) (chs : Multiaddr),
      (c1.code = P_IP4 ∨ c1.code = P_IP6) → c2.code = P_UDP → c3.code = P_QUIC →
      c4.code = P_WEBTRANSPORT → (∀ c ∈ chs, c.code = P_CERTHASH) →
      isDialable ([c1, c2, c3, c4] ++ chs) = true) ∧
    (∀ a : Multiaddr, (∀ c ∈ a, c.code ≠ P_UDP) →
      isDialable a = false ∧ isListenable a = false) ∧
    (∀ a : Multiaddr, (∀ c ∈ a, c.code ≠ P_QUIC) →
      isDialable a = false ∧ isListenable a = false) ∧
    (∀ (c1 c2 c3 c4 : MaComponent) (chs : Multiaddr),
      (c1.code = P_IP4 ∨ c1.code = P_IP6) → c2.code = P_TCP → c3.code = P_QUIC →
      c4.code = P_WEBTRANSPORT → (∀ c ∈ chs, c.code = P_CERTHASH) →
      isDialable ([c1, c2, c3, c4] ++ chs) = false ∧
      isListenable ([c1, c2, c3, c4] ++ chs) = false) ∧
    (∀ (a : Multiaddr) (c : MaComponent), c ∈ a → c.code = P_CERTHASH →
      isListenable a = false) := by
  have hno_udp : ∀ a : Multiaddr, (∀ c ∈ a, c.code ≠ P_UDP) →
      isDialable a = false ∧ isListenable a = false := by
    intro a h
    constructor
    · rw [Bool.eq_false_iff]
      intro ht
      obtain ⟨c, hc, hcode⟩ := matches_has_udp _ ht
      exact h c (mem_dropTrailingCertHashes a c hc) hcode
    · rw [Bool.eq_false_iff]
      intro ht
      obtain ⟨c, hc, hcode⟩ := matches_has_udp _ ht
      exact h c hc hcode
  refine ⟨?_, hno_udp, ?_, ?_, ?_⟩
  · intro c1 c2 c3 c4 chs hip h2 h3 h4 hch
    have hlast : ∀ b t, ([c1, c2, c3, c4] : Multiaddr).reverse = b :: t →
        (b.code == P_CERTHASH) = false := by
      intro b t hbt
      simp only [List.reverse_cons, List.reverse_nil, List.nil_append,
        List.cons_append] at hbt
      cases hbt
      rw [h4]
      decide
    unfold isDialable
    rw [dropTrailingCertHashes_append [c1, c2, c3, c4] chs hch hlast]
    rw [webtransportMatcher_matches_iff]
    exact ⟨c1, c2, c3, c4, rfl, hip, h2, h3, h4⟩
  · intro a h
    constructor
    · rw [Bool.eq_false_iff]
      intro ht
      obtain ⟨c, hc, hcode⟩ := matches_has_quic _ ht
      exact h c (mem_dropTrailingCertHashes a c hc) hcode
    · rw [Bool.eq_false_iff]
      intro ht
      obtain ⟨c, hc, hcode⟩ := matches_has_quic _ ht
      exact h c hc hcode
  · intro c1 c2 c3 c4 chs hip h2 h3 h4 hch
    apply hno_udp
    intro c hc
    rcases List.mem_append.mp hc with hc | hc
    · rcases List.mem_cons.mp hc with rfl | hc
      · rcases hip with hip | hip <;> rw [hip] <;> decide
      rcases List.mem_cons.mp hc with rfl | hc
      · rw [h2]
        decide
      rcases List.mem_cons.mp hc with rfl | hc
      · rw [h3]
        decide
      rcases List.mem_cons.mp hc with rfl | hc
      · rw [h4]
        decide
      cases hc
    · rw [hch c hc]
      decide
  · intro a c hc hcode
    rw [Bool.eq_false_iff]
    intro ht
    exact matches_no_certhash a ht c hc hcode

/-- Witness for C4 at concrete addresses. -/
theorem dial_listen_structural_witness :
    isDialable ([⟨P_IP4, []⟩, ⟨P_UDP, []⟩, ⟨P_QUIC, []⟩, ⟨P_WEBTRANSPORT, []⟩]
      ++ [⟨P_CERTHASH, []⟩]) = true ∧
    (isDialable ([⟨P_IP4, []⟩, ⟨P_TCP, []⟩, ⟨P_QUIC, []⟩, ⟨P_WEBTRANSPORT, []⟩]
        ++ ([] : Multiaddr)) = false ∧
      isListenable ([⟨P_IP4, []⟩, ⟨P_TCP, []⟩, ⟨P_QUIC, []⟩, ⟨P_WEBTRANSPORT, []⟩]
        ++ ([] : Multiaddr)) = false) ∧
    isListenable [⟨P_IP4, []⟩, ⟨P_UDP, []⟩, ⟨P_QUIC, []⟩, ⟨P_WEBTRANSPORT, []⟩,
      ⟨P_CERTHASH, []⟩] = false := by
  refine ⟨?_, ?_, ?_⟩
  · exact dial_listen_structural.1 ⟨P_IP4, []⟩ ⟨P_UDP, []⟩ ⟨P_QUIC, []⟩
      ⟨P_WEBTRANSPORT, []⟩ [⟨P_CERTHASH, []⟩] (Or.inl rfl) rfl rfl rfl (by decide)
  · exact dial_listen_structural.2.2.2.1 ⟨P_IP4, []⟩ ⟨P_TCP, []⟩ ⟨P_QUIC, []⟩
      ⟨P_WEBTRANSPORT, []⟩ [] (Or.inl rfl) rfl rfl rfl (by decide)
  · exact dial_listen_structural.2.2.2.2 _ ⟨P_CERTHASH, []⟩ (by decide) rfl

/-! ## Certificate-hash extraction -/

theorem extractCertHashesLoop_ok (ss : List (List Char)) (l : List DecodedMultihash)
    (h : extractCertHashesLoop ss = .ok l) :
    List.Forall₂ (fun s dh => decodeCertHashStr s = .ok dh) ss l := by
  induction ss generalizing l with
  | nil =>
    unfold extractCertHashesLoop at h
    cases h
    exact List.Forall₂.nil
  | cons s rest ih =>
    rw [extractCertHashesLoop] at h
    cases hd : decodeCertHashStr s with
    | error e =>
      simp only [hd] at h
      cases h
    | ok dh =>
      simp only [hd] at h
      cases hl : extractCertHashesLoop rest with
      | error e =>
        simp only [hl] at h
        cases h
      | ok dhs =>
        simp only [hl, Except.ok.injEq] at h
        subst h
        exact List.Forall₂.cons hd (ih dhs hl)

theorem extractCertHashesLoop_err (ss : List (List Char)) (s : List Char)
    (hmem : s ∈ ss) (hfail : ∀ dh, decodeCertHashStr s ≠ .ok dh) :
    ∃ e, extractCertHashesLoop ss = .error e := by
  induction ss with
  | nil => cases hmem
  | cons s1 rest ih =>
    rcases List.mem_cons.mp hmem with rfl | h1
    · cases hd : decodeCertHashStr s with
      | error e =>
        refine ⟨e, ?_⟩
        rw [extractCertHashesLoop]
        simp [hd]
      | ok dh => exact absurd hd (hfail dh)
    · cases hd : decodeCertHashStr s1 with
      | error e =>
        refine ⟨e, ?_⟩
        rw [extractCertHashesLoop]
        simp [hd]
      | ok dh =>
        obtain ⟨e, he⟩ := ih h1
        refine ⟨e, ?_⟩
        rw [extractCertHashesLoop]
        simp [hd, he]

theorem certHashValues_append (a b : Multiaddr) :
    certHashValues (a ++ b) = certHashValues a ++ certHashValues b := by
  unfold certHashValues
  rw [List.filter_append, List.map_append]

theorem certHashValues_eq_nil (a : Multiaddr) (h : ∀ c ∈ a, c.code ≠ P_CERTHASH) :
    certHashValues a = [] := by
  unfold certHashValues
  have hf : a.filter (fun c => c.code == P_CERTHASH) = [] := by
    rw [List.filter_eq_nil_iff]
    intro c hc
    simp [h c hc]
  rw [hf]
  rfl

/-- C5: extracting the certificate hashes of an address either decodes every
certhash component, in positional order (first conjunct), or — as soon as one
component's multibase/multihash encoding is invalid — fails with an error and
produces no partial sequence (second conjunct). -/
theorem extractCertHashes_all_or_nothing (a : Multiaddr) :
    (∀ l, extractCertHashes a = .ok l →
      List.Forall₂ (fun s dh => decodeCertHashStr s = .ok dh) (certHashValues a) l) ∧
    (∀ s, s ∈ certHashValues a → (∀ dh, decodeCertHashStr s ≠ .ok dh) →
      ∃ e, extractCertHashes a = .error e) := by
  constructor
  · intro l h
    exact extractCertHashesLoop_ok _ l h
  · intro s hs hf
    exact extractCertHashesLoop_err _ s hs hf

/-- Witness for C5: an address with no certhash components decodes to the
empty sequence, and an address with one malformed certhash value fails. -/
theorem extractCertHashes_all_or_nothing_witness :
    List.Forall₂ (fun s dh => decodeCertHashStr s = .ok dh)
      (certHashValues ([⟨P_IP4, []⟩, ⟨P_UDP, []⟩] : Multiaddr)) [] ∧
    (∃ e, extractCertHashes [(⟨P_CERTHASH, []⟩ : MaComponent)] = .error e) := by
  constructor
  · exact (extractCertHashes_all_or_nothing _).1 [] rfl
  · refine (extractCertHashes_all_or_nothing _).2 [] (by decide) ?_
    intro dh h
    simp [decodeCertHashStr, multibaseDecode] at h

/-! ## The certhash component built for a certificate -/

theorem addrComponentForCert_eq (hash : List Nat) (hh : ∀ b ∈ hash, b < 256) :
    addrComponentForCert hash = .ok ⟨P_CERTHASH,
      multibaseEncode .base58btc (uvarintEncode SHA2_256 ++ uvarintEncode hash.length ++ hash)⟩ := by
  unfold addrComponentForCert multihashEncode
  rw [if_pos (show SHA2_256 ∈ validMultihashCodes by decide)]
  show newComponent P_CERTHASH
    (multibaseEncode .base58btc (uvarintEncode SHA2_256 ++ uvarintEncode hash.length ++ hash)) = _
  unfold newComponent
  rw [if_pos rfl]
  rw [multibaseDecode_encode .base58btc _ (multihashBytes_lt SHA2_256 hash hh)]

/-- C6: the certhash component this implementation builds from a raw digest
carries the digest as a self-describing SHA2-256 multihash, multibase-encoded
in Base58BTC text form (code character `z`); and decoding accepts the same
multihash written under any known multibase code character, not only
Base58BTC's. -/
theorem certhash_component_encoding (hash : List Nat) (hh : ∀ b ∈ hash, b < 256) :
    addrComponentForCert hash = .ok ⟨P_CERTHASH,
      multibaseEncode .base58btc (uvarintEncode SHA2_256 ++ uvarintEncode hash.length ++ hash)⟩ ∧
    (multibaseEncode .base58btc
      (uvarintEncode SHA2_256 ++ uvarintEncode hash.length ++ hash)).headD ' ' = 'z' ∧
    (∀ e : MultibaseEncoding,
      decodeCertHashStr (multibaseEncode e (uvarintEncode SHA2_256 ++ uvarintEncode hash.length ++ hash))
        = .ok ⟨SHA2_256, hash.length, hash⟩) :=
  ⟨addrComponentForCert_eq hash hh, rfl,
    fun e => decodeCertHashStr_encode e SHA2_256 hash hh⟩

/-- Witness for C6 at the digest `[3, 7]`, instantiating the any-multibase
clause at the base10 code. -/
theorem certhash_component_encoding_witness :
    (∀ b ∈ [3, 7], b < 256) ∧
    addrComponentForCert [3, 7] = .ok ⟨P_CERTHASH,
      multibaseEncode .base58btc
        (uvarintEncode SHA2_256 ++ uvarintEncode (List.length [3, 7]) ++ [3, 7])⟩ ∧
    (multibaseEncode .base58btc
      (uvarintEncode SHA2_256 ++ uvarintEncode (List.length [3, 7]) ++ [3, 7])).headD ' ' = 'z' ∧
    decodeCertHashStr (multibaseEncode .base10
        (uvarintEncode SHA2_256 ++ uvarintEncode (List.length [3, 7]) ++ [3, 7]))
      = .ok ⟨SHA2_256, List.length [3, 7], [3, 7]⟩ :=
  ⟨by decide, (certhash_component_encoding [3, 7] (by decide)).1,
    (certhash_component_encoding [3, 7] (by decide)).2.1,
    (certhash_component_encoding [3, 7] (by decide)).2.2 .base10⟩

/-- C10: appending the component built from a raw digest to an address with no
certhash components, and then extracting, yields exactly one decoded
multihash: SHA2-256 with that digest. -/
theorem certhash_roundtrip (hash : List Nat) (a : Multiaddr) (comp : MaComponent)
    (hh : ∀ b ∈ hash, b < 256) (hnone : ∀ c ∈ a, c.code ≠ P_CERTHASH)
    (hcomp : addrComponentForCert hash = .ok comp) :
    extractCertHashes (a ++ [comp]) = .ok [⟨SHA2_256, hash.length, hash⟩] := by
  rw [addrComponentForCert_eq hash hh] at hcomp
  cases hcomp
  unfold extractCertHashes
  rw [certHashValues_append, certHashValues_eq_nil a hnone, List.nil_append]
  have hone : certHashValues [(⟨P_CERTHASH,
      multibaseEncode .base58btc (uvarintEncode SHA2_256 ++ uvarintEncode hash.length ++ hash)⟩
        : MaComponent)]
      = [multibaseEncode .base58btc (uvarintEncode SHA2_256 ++ uvarintEncode hash.length ++ hash)] := by
    simp [certHashValues]
  rw [hone, extractCertHashesLoop]
  rw [decodeCertHashStr_encode .base58btc SHA2_256 hash hh]
  simp [extractCertHashesLoop]

/-- Witness for C10 at the digest `[1, 2]` appended to `/ip4/udp`. -/
theorem certhash_roundtrip_witness :
    (∀ b ∈ [1, 2], b < 256) ∧
    (∀ c ∈ ([⟨P_IP4, []⟩, ⟨P_UDP, []⟩] : Multiaddr), c.code ≠ P_CERTHASH) ∧
    extractCertHashes ([⟨P_IP4, []⟩, ⟨P_UDP, []⟩] ++ [⟨P_CERTHASH,
        multibaseEncode .base58btc
          (uvarintEncode SHA2_256 ++ uvarintEncode (List.length [1, 2]) ++ [1, 2])⟩])
      = .ok [⟨SHA2_256, List.length [1, 2], [1, 2]⟩] :=
  ⟨by decide, by decide,
    certhash_roundtrip [1, 2] [⟨P_IP4, []⟩, ⟨P_UDP, []⟩] _ (by decide) (by decide)
      (addrComponentForCert_eq [1, 2] (by decide))⟩

/-! ## Converting bound endpoints to listen addresses -/

/-- C9: converting a raw local endpoint to the listener's base address
succeeds exactly for UDP-family endpoints, yielding the network and port
components followed by the quic and webtransport markers and no certhash
component; TCP and unknown endpoints fail. -/
theorem toWebtransportMultiaddr_spec :
    (∀ ip port, toWebtransportMultiaddr (.udp ip port) =
        .ok [ipComponent ip, ⟨P_UDP, portValue port⟩, ⟨P_QUIC, []⟩, ⟨P_WEBTRANSPORT, []⟩] ∧
      ∀ c ∈ [ipComponent ip, ⟨P_UDP, portValue port⟩, ⟨P_QUIC, []⟩,
          (⟨P_WEBTRANSPORT, []⟩ : MaComponent)], c.code ≠ P_CERTHASH) ∧
    (∀ ip port, toWebtransportMultiaddr (.tcp ip port) = .error "not a UDP address") ∧
    toWebtransportMultiaddr .other = .error "unknown network type" := by
  refine ⟨?_, ?_, rfl⟩
  · intro ip port
    constructor
    · cases ip <;> rfl
    · intro c hc
      rcases List.mem_cons.mp hc with rfl | hc
      · cases ip <;> simp [ipComponent, P_IP4, P_IP6, P_CERTHASH]
      rcases List.mem_cons.mp hc with rfl | hc
      · exact (by decide : P_UDP ≠ P_CERTHASH)
      rcases List.mem_cons.mp hc with rfl | hc
      · exact (by decide : P_QUIC ≠ P_CERTHASH)
      rcases List.mem_cons.mp hc with rfl | hc
      · exact (by decide : P_WEBTRANSPORT ≠ P_CERTHASH)
      cases hc
  · intro ip port
    cases ip <;> rfl

/-- Witness for C9 at a concrete endpoint. -/
theorem toWebtransportMultiaddr_spec_witness :
    toWebtransportMultiaddr (.udp (.v4 "127.0.0.1".toList) 443) =
      .ok [ipComponent (.v4 "127.0.0.1".toList), ⟨P_UDP, portValue 443⟩,
        ⟨P_QUIC, []⟩, ⟨P_WEBTRANSPORT, []⟩] ∧
    toWebtransportMultiaddr (.tcp (.v4 "127.0.0.1".toList) 443) = .error "not a UDP address" :=
  ⟨(toWebtransportMultiaddr_spec.1 (.v4 "127.0.0.1".toList) 443).1,
    toWebtransportMultiaddr_spec.2.1 (.v4 "127.0.0.1".toList) 443⟩

/-! ## Listener accept-pipeline lemmas -/

theorem runHandshakeTask_of_error (env : HandshakeEnv) (ctxDone : Bool) (c : WtSession)
    (e : HsError) (h : (handshake env ctxDone c).1 = .error e) :
    runHandshakeTask env ctxDone c = ⟨none, true⟩ := by
  unfold runHandshakeTask
  rw [h]

theorem handshake_ok_iff (env : HandshakeEnv) (c : WtSession) (conn : CapableConn) :
    (handshake env false c).1 = .ok conn ↔
      ∃ str pk, env.acceptStream c = some str ∧ env.secureInbound str = some pk ∧
        env.openConnection c = true ∧ env.setPeer pk = true ∧
        env.interceptSecured pk = true ∧ conn = ⟨c, pk⟩ := by
  cases hstr : env.acceptStream c with
  | none => simp [handshake, hstr]
  | some str =>
    cases hpk : env.secureInbound str with
    | none => simp [handshake, hstr, hpk]
    | some pk =>
      cases hoc : env.openConnection c <;>
        cases hsp : env.setPeer pk <;>
        cases his : env.interceptSecured pk <;>
        simp [handshake, hstr, hpk, hoc, his, hsp]
      exact eq_comm

theorem handshake_ok_trace (env : HandshakeEnv) (c : WtSession) (conn : CapableConn)
    (h : (handshake env false c).1 = .ok conn) :
    (handshake env false c).2 = fullHandshakeTrace := by
  rcases (handshake_ok_iff env c conn).mp h with ⟨str, pk, hstr, hpk, hoc, hsp, his, rfl⟩
  simp [handshake, hstr, hpk, hoc, hsp, his]

theorem acceptRun_sound (env : HandshakeEnv) (s : AcceptState) (r : AcceptResult)
    (hrun : AcceptRun env s r)
    (hres : ∀ conn ∈ s.results, connFromSuccessfulHandshake env conn) :
    r = .closedErr ∨ ∃ conn, r = .accepted conn ∧ connFromSuccessfulHandshake env conn := by
  induction hrun with
  | retClosed s h => exact Or.inl rfl
  | retConn s conn rest h =>
    exact Or.inr ⟨conn, rfl, hres conn (by rw [h]; exact List.mem_cons_self _ _)⟩
  | popSpawn s c q r hq hr ih => exact ih hres
  | taskDone s c p1 p2 r hp hr ih =>
    apply ih
    intro conn hconn
    rcases List.mem_append.mp hconn with h1 | h1
    · exact hres conn h1
    · cases hcd : s.ctxDone with
      | true =>
        rw [hcd] at h1
        rw [runHandshakeTask_of_error env true c .cancelled rfl] at h1
        simp [pushedConns] at h1
      | false =>
        rw [hcd] at h1
        cases hh : (handshake env false c).1 with
        | error e =>
          rw [runHandshakeTask_of_error env false c e hh] at h1
          simp [pushedConns] at h1
        | ok conn2 =>
          have heq : runHandshakeTask env false c = ⟨some conn2, false⟩ := by
            unfold runHandshakeTask
            rw [hh]
          rw [heq] at h1
          simp [pushedConns] at h1
          subst h1
          exact ⟨c, hh⟩
  | interClose s r hr ih => exact ih hres
  | rawArrival s c r hlen hr ih => exact ih hres

/-- C1: the handshake task spawned for every raw session popped by Accept
opens the session's first stream, runs the inbound identity handshake, and
then applies resource accounting and connection gating, in that order (the
trace clause); it succeeds exactly when every stage allows the connection
(the iff clause); a resource denial or a gating rejection closes the session
and pushes nothing (the denial clauses); and a connection is returned by
Accept only if its session passed every stage (the final clause). -/
theorem inbound_pipeline_checks :
    (∀ (env : HandshakeEnv) (c : WtSession) (conn : CapableConn),
      (handshake env false c).1 = .ok conn →
      (handshake env false c).2 = fullHandshakeTrace) ∧
    (∀ (env : HandshakeEnv) (c : WtSession) (conn : CapableConn),
      (handshake env false c).1 = .ok conn ↔
        ∃ str pk, env.acceptStream c = some str ∧ env.secureInbound str = some pk ∧
          env.openConnection c = true ∧ env.setPeer pk = true ∧
          env.interceptSecured pk = true ∧ conn = ⟨c, pk⟩) ∧
    (∀ (env : HandshakeEnv) (c : WtSession) (str : WtStream) (pk : PubKey),
      env.acceptStream c = some str → env.secureInbound str = some pk →
      env.openConnection c = false →
      (handshake env false c).1 = .error .resourceDenied ∧
      runHandshakeTask env false c = ⟨none, true⟩) ∧
    (∀ (env : HandshakeEnv) (c : WtSession) (str : WtStream) (pk : PubKey),
      env.acceptStream c = some str → env.secureInbound str = some pk →
      env.openConnection c = true → env.setPeer pk = true →
      env.interceptSecured pk = false →
      (handshake env false c).1 = .error .gated ∧
      runHandshakeTask env false c = ⟨none, true⟩) ∧
    (∀ (env : HandshakeEnv) (s : AcceptState) (r : AcceptResult) (conn : CapableConn),
      AcceptRun env s r → s.results = [] → r = .accepted conn →
      ∃ str pk, env.acceptStream conn.session = some str ∧
        env.secureInbound str = some pk ∧ env.openConnection conn.session = true ∧
        env.setPeer pk = true ∧ env.interceptSecured pk = true ∧ conn.remote = pk) := by
  refine ⟨handshake_ok_trace, handshake_ok_iff, ?_, ?_, ?_⟩
  · intro env c str pk hstr hpk hoc
    have h1 : (handshake env false c).1 = .error .resourceDenied := by
      simp [handshake, hstr, hpk, hoc]
    exact ⟨h1, runHandshakeTask_of_error env false c _ h1⟩
  · intro env c str pk hstr hpk hoc hsp his
    have h1 : (handshake env false c).1 = .error .gated := by
      simp [handshake, hstr, hpk, hoc, hsp, his]
    exact ⟨h1, runHandshakeTask_of_error env false c _ h1⟩
  · intro env s r conn hrun hres hacc
    rcases acceptRun_sound env s r hrun
        (by rw [hres]; intro x hx; cases hx) with h | ⟨conn2, heq, c, hok⟩
    · rw [hacc] at h
      cases h
    · rw [hacc] at heq
      cases heq
      rcases (handshake_ok_iff env c conn).mp hok with ⟨str, pk, hstr, hpk, hoc, hsp, his, rfl⟩
      exact ⟨str, pk, hstr, hpk, hoc, hsp, his, rfl⟩

/-- Witness for C1: a concrete run in which every stage allows session 0, and
the pipeline facts at that input. -/
theorem inbound_pipeline_checks_witness :
    AcceptRun envAll ⟨false, [⟨0⟩], [], []⟩ (.accepted conn0) ∧
    (handshake envAll false ⟨0⟩).1 = .ok conn0 ∧
    (handshake envAll false ⟨0⟩).2 = fullHandshakeTrace ∧
    (∃ str pk, envAll.acceptStream conn0.session = some str ∧
      envAll.secureInbound str = some pk ∧ envAll.openConnection conn0.session = true ∧
      envAll.setPeer pk = true ∧ envAll.interceptSecured pk = true ∧ conn0.remote = pk) := by
  have hrun : AcceptRun envAll ⟨false, [⟨0⟩], [], []⟩ (.accepted conn0) :=
    .popSpawn _ ⟨0⟩ [] _ rfl (.taskDone _ ⟨0⟩ [] [] _ rfl (.retConn _ conn0 [] rfl))
  refine ⟨hrun, rfl, ?_, ?_⟩
  · exact inbound_pipeline_checks.1 envAll ⟨0⟩ conn0 rfl
  · exact inbound_pipeline_checks.2.2.2.2 envAll ⟨false, [⟨0⟩], [], []⟩ _ conn0 hrun rfl rfl

/-- C3: a raw session whose handshake fails or times out is closed and pushes
nothing onto the results channel, and an Accept call (its local results
channel starts empty) returns either `errClosed` or a connection whose
handshake succeeded — a handshake-stage error is never surfaced. -/
theorem accept_swallows_handshake_failures :
    (∀ (env : HandshakeEnv) (ctxDone : Bool) (c : WtSession) (e : HsError),
      (handshake env ctxDone c).1 = .error e →
      runHandshakeTask env ctxDone c = ⟨none, true⟩) ∧
    (∀ (env : HandshakeEnv) (s : AcceptState) (r : AcceptResult),
      AcceptRun env s r → s.results = [] →
      r = .closedErr ∨ ∃ conn, r = .accepted conn ∧ connFromSuccessfulHandshake env conn) := by
  constructor
  · exact runHandshakeTask_of_error
  · intro env s r hrun hres
    exact acceptRun_sound env s r hrun (by rw [hres]; intro x hx; cases hx)

/-- Witness for C3: a failing identity handshake closes session 0 and pushes
nothing; an Accept run on a closed listener returns `errClosed`. -/
theorem accept_swallows_handshake_failures_witness :
    (handshake envAuthFail false ⟨0⟩).1 = .error .authFailed ∧
    runHandshakeTask envAuthFail false ⟨0⟩ = ⟨none, true⟩ ∧
    (AcceptResult.closedErr = .closedErr ∨ ∃ conn, AcceptResult.closedErr = .accepted conn ∧
      connFromSuccessfulHandshake envAuthFail conn) := by
  refine ⟨rfl, ?_, ?_⟩
  · exact accept_swallows_handshake_failures.1 envAuthFail false ⟨0⟩ .authFailed rfl
  · exact accept_swallows_handshake_failures.2 envAuthFail ⟨true, [], [], []⟩ .closedErr
      (.retClosed _ rfl) rfl

/-- C8 counterexample: after Close has cancelled the listener context, an
Accept call already in progress whose local results channel holds a
connection that completed its handshake before the close can still return
that connection rather than failing with `errClosed` — the second select
races the results channel against the cancelled context (the third conjunct
shows the racy interleaving: pop, handshake completion, close, then return). -/
theorem accept_after_close_counterexample :
    AcceptRun envAll ⟨true, [], [], [conn0]⟩ (.accepted conn0) ∧
    AcceptResult.accepted conn0 ≠ .closedErr ∧
    AcceptRun envAll ⟨false, [⟨0⟩], [], []⟩ (.accepted conn0) :=
  ⟨.retConn _ conn0 [] rfl, by decide,
    .popSpawn _ ⟨0⟩ [] _ rfl (.taskDone _ ⟨0⟩ [] [] _ rfl
      (.interClose _ _ (.retConn _ conn0 [] rfl)))⟩

/-- C8 (amended): Close cancels the listener context, closes the server,
waits for the serving task (the `serverClosed` channel) and returns the
server-close error; and after Close, every Accept call whose local results
channel holds no already-completed connection — in particular every call
started after the close — fails with `errClosed`. -/
theorem close_listener_spec :
    (∀ (l : ListenerLifecycle) (e : Option String),
      closeListener l e = (⟨true, true, true⟩, e)) ∧
    (∀ (env : HandshakeEnv) (s : AcceptState) (r : AcceptResult),
      AcceptRun env s r → s.ctxDone = true → s.results = [] → r = .closedErr) := by
  constructor
  · intro l e
    rfl
  · intro env s r hrun
    induction hrun with
    | retClosed s h =>
      intro _ _
      rfl
    | retConn s conn rest h =>
      intro _ hres
      rw [hres] at h
      cases h
    | popSpawn s c q r hq hr ih =>
      intro hcd hres
      exact ih hcd hres
    | taskDone s c p1 p2 r hp hr ih =>
      intro hcd hres
      apply ih hcd
      show s.results ++ pushedConns (runHandshakeTask env s.ctxDone c) = []
      rw [hres, hcd, runHandshakeTask_of_error env true c .cancelled rfl]
      rfl
    | interClose s r hr ih =>
      intro _ hres
      exact ih rfl hres
    | rawArrival s c r hlen hr ih =>
      intro hcd hres
      exact ih hcd hres

/-- Witness for C8 (amended) at a concrete lifecycle state and run. -/
theorem close_listener_spec_witness :
    closeListener ⟨false, false, false⟩ (some "close failed")
      = (⟨true, true, true⟩, some "close failed") ∧
    AcceptRun envAll ⟨true, [], [], []⟩ .closedErr ∧
    AcceptResult.closedErr = .closedErr := by
  refine ⟨close_listener_spec.1 ⟨false, false, false⟩ (some "close failed"),
    .retClosed _ rfl, ?_⟩
  exact close_listener_spec.2 envAll ⟨true, [], [], []⟩ .closedErr (.retClosed _ rfl) rfl rfl

/-- C2: the raw-accept queue capacity is the source's `queueLen = 16`, and the
raw-accept callback's channel send on a full queue *blocks* (the send would
block; the source marks overflow handling as a TODO) instead of rejecting or
dropping the new session; a 15-deep queue still admits a 16th session. -/
theorem rawAccept_full_queue_blocks :
    queueLen = 16 ∧
    rawAcceptPush (sessionsUpTo queueLen) ⟨16⟩ = .wouldBlock ∧
    rawAcceptPush (sessionsUpTo 15) ⟨15⟩ = .delivered (sessionsUpTo 16) := by
  refine ⟨rfl, ?_, ?_⟩ <;> decide

/-- C7: every read of the listener's Multiaddr is the stored base address
with the certificate manager's *current* components appended — a function of
the manager's present state, so a rotation is reflected at the next read —
and in static-TLS mode no hash components are appended; when the base carries
no certhash components and the advertised components are certhash components,
the certhash components of the advertised address are exactly the current
ones. -/
theorem listener_multiaddr_fresh (base : Multiaddr) (cm : CertManagerView) :
    (cm.staticTLS = false → listenerMultiaddr base cm = base ++ cm.advertised) ∧
    (cm.staticTLS = true → listenerMultiaddr base cm = base) ∧
    ((∀ c ∈ base, c.code ≠ P_CERTHASH) → (∀ c ∈ cm.advertised, c.code = P_CERTHASH) →
      (listenerMultiaddr base cm).filter (fun c => c.code == P_CERTHASH)
        = certManagerAddrComponent cm) := by
  refine ⟨?_, ?_, ?_⟩
  · intro h
    simp [listenerMultiaddr, certManagerAddrComponent, h]
  · intro h
    simp [listenerMultiaddr, certManagerAddrComponent, h]
  · intro hbase hadv
    unfold listenerMultiaddr
    rw [List.filter_append]
    have h1 : base.filter (fun c => c.code == P_CERTHASH) = [] := by
      rw [List.filter_eq_nil_iff]
      intro c hc
      simp [hbase c hc]
    have h2 : (certManagerAddrComponent cm).filter (fun c => c.code == P_CERTHASH)
        = certManagerAddrComponent cm := by
      rw [List.filter_eq_self]
      intro c hc
      unfold certManagerAddrComponent at hc
      by_cases hst : cm.staticTLS = true
      · rw [if_pos hst] at hc
        cases hc
      · rw [if_neg hst] at hc
        simp [hadv c hc]
    rw [h1, h2, List.nil_append]

/-- Witness for C7 at a concrete base address and manager states. -/
theorem listener_multiaddr_fresh_witness :
    listenerMultiaddr [⟨P_IP4, []⟩] ⟨[⟨P_CERTHASH, ['z']⟩], false⟩
      = [⟨P_IP4, []⟩] ++ [⟨P_CERTHASH, ['z']⟩] ∧
    listenerMultiaddr [⟨P_IP4, []⟩] ⟨[⟨P_CERTHASH, ['z']⟩], true⟩ = [⟨P_IP4, []⟩] ∧
    (listenerMultiaddr [⟨P_IP4, []⟩] ⟨[⟨P_CERTHASH, ['z']⟩], false⟩).filter
        (fun c => c.code == P_CERTHASH)
      = certManagerAddrComponent ⟨[⟨P_CERTHASH, ['z']⟩], false⟩ := by
  refine ⟨?_, ?_, ?_⟩
  · exact (listener_multiaddr_fresh _ _).1 rfl
  · exact (listener_multiaddr_fresh _ _).2.1 rfl
  · exact (listener_multiaddr_fresh _ _).2.2 (by decide) (by decide)
